import Mathlib

/-!
Shallow embedding of the henry static-site pipeline (src/henry.go).

Go strings and byte buffers are modelled as `List Char`; `time.Time` is
modelled as an abstract instant `Nat` whose zero value (`0`) plays the
role of Go's `time.Time.IsZero`.  Fallible Go code is modelled with an
explicit result type (`GoResult`) whose `crash` constructor stands for a
Go runtime panic (index out of range / nil-pointer dereference), since a
panic aborts the whole program rather than returning an error.
-/

namespace Henry

/-- Go strings / byte buffers, modelled as lists of characters. -/
abbrev Str := List Char

/-- Go `time.Time`, modelled as an abstract instant; `0` is the zero value
(`IsZero`). -/
abbrev Time := Nat

/-- Type HenryFileType from henry.go. -/
inductive HenryFileType where
  | unknown
  | markdown
deriving DecidableEq

/-- Struct HenryFileMetadata from henry.go: the TOML front-matter target. -/
structure HenryFileMetadata where
  title   : Str
  date    : Time
  draft   : Bool
  summary : Str
deriving DecidableEq

/-- The Go zero value of `HenryFileMetadata` (what `var metadata
HenryFileMetadata` starts out as). -/
def HenryFileMetadata.empty : HenryFileMetadata :=
  { title := [], date := 0, draft := false, summary := [] }

/-- Struct HenryFile from henry.go.  The `metadata` field is a pointer in Go;
`none` models the nil pointer. -/
structure HenryFile where
  name        : Str
  path        : Str
  subPath     : Str
  type        : HenryFileType
  data        : Str
  body        : Str
  hasMetadata : Bool
  metadata    : Option HenryFileMetadata
  date        : Time
deriving DecidableEq

/-- Struct HenryDocument from henry.go. -/
structure HenryDocument where
  title             : Str
  content           : Str
  contentRaw        : Str
  contentParagraphs : List Str
  date              : Time
  draft             : Bool
  summary           : Str
  summaryRaw        : Str
deriving DecidableEq

/-- Result of a Go function returning `error`; `crash` models a runtime
panic (which aborts the program instead of returning). -/
inductive GoResult (α : Type) where
  | ok (val : α)
  | error (msg : Str)
  | crash
deriving DecidableEq

/-- Projects the successful value of a `GoResult`, if any. -/
def GoResult.okVal {α : Type} : GoResult α → Option α
  | .ok v => some v
  | _ => none

/-- The front-matter delimiter `---`. -/
def dashes : Str := ['-', '-', '-']

/-- Helper for the split functions: prepend a character to the first chunk. -/
def consHead (c : Char) : List Str → List Str
  | [] => [[c]]
  | p :: ps => (c :: p) :: ps

/-- Go `strings.Split(s, "---")`: split on every leftmost non-overlapping
occurrence of `---`, dropping the separator. -/
def splitDashes : Str → List Str
  | '-' :: '-' :: '-' :: rest => [] :: splitDashes rest
  | c :: rest => consHead c (splitDashes rest)
  | [] => [[]]

/-- The suffix after the first (leftmost) occurrence of `---`, if the
string contains one.  Directly renders the spec's phrase "the text after
the n-th delimiter occurrence". -/
def afterDashes : Str → Option Str
  | '-' :: '-' :: '-' :: rest => some rest
  | _ :: rest => afterDashes rest
  | [] => none

/-- The spec's "text after the second delimiter occurrence". -/
def textAfterSecondDashes (s : Str) : Option Str :=
  (afterDashes s).bind afterDashes

/-- Go `strings.Split(s, "\n")` (used by the modelled TOML decoder). -/
def splitLines : Str → List Str
  | [] => [[]]
  | c :: rest =>
    if c = '\n' then [] :: splitLines rest
    else consHead c (splitLines rest)

/-- Go `strings.SplitAfter(s, "\n")`: split after each newline, keeping
the newline with the preceding segment. -/
def splitAfterNL : Str → List Str
  | [] => [[]]
  | c :: rest =>
    if c = '\n' then [c] :: splitAfterNL rest
    else consHead c (splitAfterNL rest)

/-- Trim characters satisfying `p` from both ends of a list. -/
def trimBy (p : Char → Bool) (l : Str) : Str :=
  ((l.dropWhile p).reverse.dropWhile p).reverse

/-- Go `strings.Trim(s, "\n")`. -/
def trimNL (l : Str) : Str := trimBy (fun c => c == '\n') l

/-- Trim spaces and tabs from both ends (used by the modelled TOML decoder). -/
def trimWS (l : Str) : Str := trimBy (fun c => c == ' ' || c == '\t') l

/-- Go `strings.Replace(s, "\n\n", "\n", -1)`: collapse every leftmost
non-overlapping double newline to a single newline. -/
def collapseNL : Str → Str
  | '\n' :: '\n' :: rest => '\n' :: collapseNL rest
  | c :: rest => c :: collapseNL rest
  | [] => []

/-- The Go slice expression `file.Data[0:3]` as it behaves in this
program: `Data` always comes from `ioutil.ReadAll`, whose backing buffer
has capacity at least 512 with NUL bytes beyond the length, so for
buffers of length 1 or 2 the expression yields the data padded with NUL
rather than panicking. -/
def goSlice3 (l : Str) : Str :=
  l.take 3 ++ List.replicate (3 - l.length) '\x00'

/-- Numeric value of a digit string. -/
def digitsVal (l : Str) : Nat :=
  l.foldl (fun n c => n * 10 + (c.toNat - 48)) 0

/-- Characters allowed in a TOML datetime value (modelled). -/
def isDateChar (c : Char) : Bool :=
  c.isDigit || c == '-' || c == ':' || c == 'T' || c == 'Z' || c == '+' || c == '.'

/-- Modelled from the spec: parsing of a TOML basic string value
(`"..."`), for the external BurntSushi/toml decoder which is not part of
this repository. -/
def parseQuoted (v : Str) : Except Str Str :=
  if 2 ≤ v.length ∧ v.take 1 = ['"'] ∧ v.drop (v.length - 1) = ['"']
      ∧ ((v.drop 1).dropLast.contains '"') = false then
    .ok ((v.drop 1).dropLast)
  else
    .error ("toml: invalid string value".data)

/-- Modelled from the spec: parsing of a TOML datetime value into an
abstract instant, for the external TOML decoder. -/
def parseDate (v : Str) : Except Str Time :=
  if v ≠ [] ∧ v.all isDateChar ∧ v.filter Char.isDigit ≠ [] then
    .ok (digitsVal (v.filter Char.isDigit))
  else
    .error ("toml: invalid datetime".data)

/-- Modelled from the spec: decoding of one line of the front-matter
block by the external TOML decoder — a `key = value` pair with the
recognized keys title (string), date (timestamp), draft (boolean),
summary (string); blank lines are skipped and unrecognized keys are
ignored, while a line without a key separator is a parse error. -/
def tomlDecodeLine (m : HenryFileMetadata) (line : Str) : Except Str HenryFileMetadata :=
  let t := trimWS line
  if t = [] then .ok m
  else
    let before := t.takeWhile (fun c => c ≠ '=')
    let rest := t.dropWhile (fun c => c ≠ '=')
    if rest = [] then .error ("toml: expected key separator".data)
    else
      let key := trimWS before
      let value := trimWS (rest.drop 1)
      if key = "title".data then
        (parseQuoted value).map (fun s => { m with title := s })
      else if key = "summary".data then
        (parseQuoted value).map (fun s => { m with summary := s })
      else if key = "draft".data then
        if value = "true".data then .ok { m with draft := true }
        else if value = "false".data then .ok { m with draft := false }
        else .error ("toml: invalid boolean".data)
      else if key = "date".data then
        (parseDate value).map (fun d => { m with date := d })
      else .ok m

/-- Modelled from the spec: `toml.Decode` of the external BurntSushi/toml
library, decoding the front-matter block into `HenryFileMetadata`
starting from the zero value. -/
def tomlDecode (s : Str) : Except Str HenryFileMetadata :=
  (splitLines s).foldlM tomlDecodeLine HenryFileMetadata.empty

/-- Function classifyHenryFile from henry.go: markdown iff the path ends in
`.md`; sub-path is the path with the root prefix and the file-name
suffix trimmed. -/
def classifyHenryFile (file : HenryFile) (rootPath : Str) : HenryFile :=
  let ty := if (".md".data).isSuffixOf file.path then HenryFileType.markdown
            else HenryFileType.unknown
  let tmp := if rootPath.isPrefixOf file.path then file.path.drop rootPath.length
             else file.path
  let tmp2 := if file.name.isSuffixOf tmp then tmp.take (tmp.length - file.name.length)
              else tmp
  { file with type := ty, subPath := tmp2 }

/-- The `errors.New(fmt.Sprintf(...))` message built by
`readHenryFileMetadata`. -/
def metadataErrMsg (name err : Str) : Str :=
  "error parsing metadata in '".data ++ name ++ "': ".data ++ err

/-- Function readHenryFileMetadata from henry.go.  Note the order of
operations, which the proofs below depend on: the empty-buffer early
return happens before the default metadata object is allocated, and
`headerParts[2]` is indexed without a bounds check (out of range is a
`crash`). -/
def readHenryFileMetadata (file : HenryFile) : GoResult HenryFile :=
  if file.data.length = 0 then
    .ok file
  else
    let file := { file with hasMetadata := false, metadata := some HenryFileMetadata.empty }
    let hdr := goSlice3 file.data
    if hdr ≠ dashes then
      .ok { file with body := file.data }
    else
      let headerParts := splitDashes file.data
      match headerParts.get? 1 with
      | none => .crash
      | some part1 =>
        match tomlDecode part1 with
        | .error e => .error (metadataErrMsg file.name e)
        | .ok metadata =>
          match headerParts.get? 2 with
          | none => .crash
          | some part2 =>
            .ok { file with hasMetadata := true, metadata := some metadata, body := part2 }

/-- The body of `createHenryDocument` from henry.go after the
`file.Metadata` pointer has been dereferenced successfully; `render` and
`sanitize` abstract the external blackfriday and bluemonday
collaborators. -/
def createHenryDocumentMeta (render sanitize : Str → Str) (file : HenryFile)
    (meta : HenryFileMetadata) : HenryDocument :=
  let u := render file.body
  let h := sanitize u
  let content := trimNL (collapseNL h)
  let contentParagraphs := (splitAfterNL content).map trimNL
  let title := if meta.title ≠ [] then meta.title else file.name
  let date := if meta.date ≠ 0 then meta.date else file.date
  let draft := if meta.draft then meta.draft else false
  let sum : Str × Str :=
    if meta.summary ≠ [] then
      (sanitize (render meta.summary), meta.summary)
    else if contentParagraphs.length > 0 then
      (contentParagraphs.headD [], [])
    else
      ([], [])
  { title := title, content := content, contentRaw := file.body,
    contentParagraphs := contentParagraphs, date := date, draft := draft,
    summary := sum.1, summaryRaw := sum.2 }

/-- Function createHenryDocument from henry.go.  The Go code dereferences
`file.Metadata` unconditionally; `none` models the nil-pointer
dereference panic that occurs when the pointer was never set. -/
def createHenryDocument (render sanitize : Str → Str) (file : HenryFile) :
    Option HenryDocument :=
  (file.metadata).map (createHenryDocumentMeta render sanitize file)

/-- Function createHenryDocuments from henry.go.  The source's error branch
(log and continue) is dead code because `createHenryDocument` always
returns a nil error; the only abnormal exit is the nil-metadata panic,
which kills the program — modelled by `none`. -/
def createHenryDocuments (render sanitize : Str → Str) (files : List HenryFile) :
    Option (List HenryDocument) :=
  files.mapM (createHenryDocument render sanitize)

/-- One file handed to the walk callback by `filepath.Walk`: its name,
full path, the bytes `readHenryFileData` would read, and the
modification time `os.Stat` would report. -/
structure WalkEntry where
  name  : Str
  path  : Str
  data  : Str
  mtime : Time
deriving DecidableEq

/-- Function analyzeHenryFile from henry.go: classify, then (for markdown) read
the data and parse the front matter, then stamp the modification time. -/
def analyzeHenryFile (rootPath : Str) (e : WalkEntry) : GoResult HenryFile :=
  let file0 : HenryFile :=
    { name := e.name, path := e.path, subPath := [], type := .unknown,
      data := [], body := [], hasMetadata := false, metadata := none, date := 0 }
  let file1 := classifyHenryFile file0 rootPath
  let res :=
    if file1.type = HenryFileType.markdown then
      readHenryFileMetadata { file1 with data := e.data }
    else
      .ok file1
  match res with
  | .ok f => .ok { f with date := e.mtime }
  | .error m => .error m
  | .crash => .crash

/-- Result of `findHenryFiles`: the Go function returns both the files
accumulated so far and the error from `filepath.Walk`. -/
inductive FindResult where
  | ok (files : List HenryFile)
  | error (filesSoFar : List HenryFile) (msg : Str)
  | crash
deriving DecidableEq

/-- Tests whether `findHenryFiles` reported a walk error. -/
def FindResult.isError : FindResult → Bool
  | .error _ _ => true
  | _ => false

/-- The `filepath.Walk` loop of `findHenryFiles` from henry.go: each
non-directory entry is analyzed; a non-nil error returned from the walk
callback aborts the whole walk. -/
def findHenryFilesLoop (rootPath : Str) : List WalkEntry → List HenryFile → FindResult
  | [], acc => .ok acc
  | e :: rest, acc =>
    match analyzeHenryFile rootPath e with
    | .ok f => findHenryFilesLoop rootPath rest (acc ++ [f])
    | .error m => .error acc m
    | .crash => .crash

/-- Function findHenryFiles from henry.go, over the ordered list of
non-directory entries the walker enumerates under the root. -/
def findHenryFiles (rootPath : Str) (entries : List WalkEntry) : FindResult :=
  findHenryFilesLoop rootPath entries []

/-- The pipeline of `main` from henry.go: discover files, then build the
document collection.  `main` panics when `findHenryFiles` returns an
error, so no collection is produced in that case (`none`); a `crash`
likewise yields no collection. -/
def henryPipeline (render sanitize : Str → Str) (rootPath : Str)
    (entries : List WalkEntry) : Option (List HenryDocument) :=
  match findHenryFiles rootPath entries with
  | .ok files => createHenryDocuments render sanitize files
  | _ => none


lemma splitDashes_cons_of_ne (c : Char) (rest : Str)
    (h : ∀ t : Str, c :: rest ≠ '-' :: '-' :: '-' :: t) :
    splitDashes (c :: rest) = consHead c (splitDashes rest) := by
  rw [splitDashes.eq_def]
  split
  · rename_i t heq
    exact absurd heq (h t)
  · rename_i c2 rest2 hne heq
    cases heq
    rfl
  · rename_i heq
    cases heq

lemma afterDashes_cons_of_ne (c : Char) (rest : Str)
    (h : ∀ t : Str, c :: rest ≠ '-' :: '-' :: '-' :: t) :
    afterDashes (c :: rest) = afterDashes rest := by
  rw [afterDashes.eq_def]
  split
  · rename_i t heq
    exact absurd heq (h t)
  · rename_i c2 rest2 hne heq
    cases heq
    rfl
  · rename_i heq
    cases heq

lemma afterDashes_dash3 (t : Str) : afterDashes ('-' :: '-' :: '-' :: t) = some t := rfl

lemma splitDashes_dash3 (t : Str) : splitDashes ('-' :: '-' :: '-' :: t) = [] :: splitDashes t := rfl

lemma ne_dash3_of_afterDashes_none {s : Str} (h : afterDashes s = none) :
    ∀ t : Str, s ≠ '-' :: '-' :: '-' :: t := by
  intro t hx
  rw [hx, afterDashes_dash3] at h
  exact Option.noConfusion h

lemma splitDashes_of_no_dashes : ∀ s : Str, afterDashes s = none → splitDashes s = [s] := by
  intro s
  induction s with
  | nil => intro _; rfl
  | cons c rest ih =>
    intro h
    have hne := ne_dash3_of_afterDashes_none h
    rw [splitDashes_cons_of_ne _ _ hne]
    rw [afterDashes_cons_of_ne _ _ hne] at h
    rw [ih h]
    rfl

lemma cons_append_ne_dash3 (c : Char) (bs tl : Str)
    (hno : afterDashes (c :: bs) = none)
    (hlast : (c :: bs).getLast? ≠ some '-') :
    ∀ t2 : Str, c :: (bs ++ '-' :: '-' :: '-' :: tl) ≠ '-' :: '-' :: '-' :: t2 := by
  intro t2 heq
  rcases bs with _ | ⟨b1, bs1⟩
  · injection heq with hc _
    subst hc
    exact hlast rfl
  · rcases bs1 with _ | ⟨b2, bs2⟩
    · injection heq with hc heq1
      injection heq1 with hb1 _
      subst hc; subst hb1
      exact hlast rfl
    · injection heq with hc heq1
      injection heq1 with hb1 heq2
      injection heq2 with hb2 _
      subst hc; subst hb1; subst hb2
      rw [afterDashes_dash3] at hno
      exact Option.noConfusion hno

lemma afterDashes_cons_none {c : Char} {bs : Str} (hno : afterDashes (c :: bs) = none) :
    afterDashes bs = none := by
  rw [afterDashes_cons_of_ne _ _ (ne_dash3_of_afterDashes_none hno)] at hno
  exact hno

lemma getLast?_cons_of_ne {c co : Char} {bs : Str} (h : (c :: bs).getLast? ≠ some co)
    (hbs : bs ≠ []) : bs.getLast? ≠ some co := by
  rcases bs with _ | ⟨b, bs1⟩
  · exact absurd rfl hbs
  · rwa [List.getLast?_cons_cons] at h

lemma splitDashes_block : ∀ block : Str, afterDashes block = none →
    block.getLast? ≠ some '-' →
    ∀ tl : Str, splitDashes (block ++ '-' :: '-' :: '-' :: tl) = block :: splitDashes tl := by
  intro block
  induction block with
  | nil => intro _ _ tl; rfl
  | cons c bs ih =>
    intro hno hlast tl
    have hne := cons_append_ne_dash3 c bs tl hno hlast
    rw [List.cons_append, splitDashes_cons_of_ne _ _ hne]
    rcases bs with _ | ⟨b, bs1⟩
    · rfl
    · rw [ih (afterDashes_cons_none hno) (getLast?_cons_of_ne hlast (by simp))]
      rfl

lemma afterDashes_block : ∀ block : Str, afterDashes block = none →
    block.getLast? ≠ some '-' →
    ∀ tl : Str, afterDashes (block ++ '-' :: '-' :: '-' :: tl) = some tl := by
  intro block
  induction block with
  | nil => intro _ _ tl; rfl
  | cons c bs ih =>
    intro hno hlast tl
    have hne := cons_append_ne_dash3 c bs tl hno hlast
    rw [List.cons_append, afterDashes_cons_of_ne _ _ hne]
    rcases bs with _ | ⟨b, bs1⟩
    · rfl
    · exact ih (afterDashes_cons_none hno) (getLast?_cons_of_ne hlast (by simp)) tl

lemma goSlice3_cons3 (a b c : Char) (t : Str) : goSlice3 (a :: b :: c :: t) = [a, b, c] := by
  have h0 : 3 - (a :: b :: c :: t).length = 0 := by simp
  simp [goSlice3, h0]

lemma goSlice3_eq_dashes_iff (l : Str) : goSlice3 l = dashes ↔ dashes <+: l := by
  match l with
  | [] => simp [goSlice3, dashes]
  | [a] => simp [goSlice3, dashes, List.cons_prefix_cons]
  | [a, b] => simp [goSlice3, dashes, List.cons_prefix_cons]
  | a :: b :: c :: t =>
    rw [goSlice3_cons3]
    simp [dashes, List.cons_prefix_cons, eq_comm]

lemma consHead_ne_nil (c : Char) (ps : List Str) : consHead c ps ≠ [] := by
  cases ps <;> simp [consHead]

lemma splitAfterNL_ne_nil (s : Str) : splitAfterNL s ≠ [] := by
  cases s with
  | nil => simp [splitAfterNL]
  | cons c rest =>
    by_cases hc : c = '\n' <;> simp [splitAfterNL, hc, consHead_ne_nil]

lemma no_inner_nl : ∀ s : Str, ∀ p ∈ splitAfterNL s, '\n' ∉ p.dropLast := by
  intro s
  induction s with
  | nil =>
    intro p hp
    simp [splitAfterNL] at hp
    subst hp
    simp
  | cons c rest ih =>
    intro p hp
    by_cases hc : c = '\n'
    · subst hc
      simp [splitAfterNL] at hp
      rcases hp with rfl | hp
      · simp
      · exact ih p hp
    · simp [splitAfterNL, hc] at hp
      rcases hsp : splitAfterNL rest with _ | ⟨q, ps⟩
      · exact absurd hsp (splitAfterNL_ne_nil rest)
      · rw [hsp] at hp
        simp [consHead] at hp
        rcases hp with rfl | hp
        · rcases q with _ | ⟨q0, q1⟩
          · simp
          · have hq := ih (q0 :: q1) (by rw [hsp]; exact List.mem_cons_self _ _)
            rw [List.dropLast_cons₂]
            simp only [List.mem_cons, not_or]
            exact ⟨fun he => hc he.symm, hq⟩
        · exact ih p (by rw [hsp]; exact List.mem_cons_of_mem _ hp)

lemma mem_of_mem_trimNL {a : Char} {l : Str} (h : a ∈ trimNL l) : a ∈ l := by
  unfold trimNL trimBy at h
  rw [List.mem_reverse] at h
  have h2 := (List.dropWhile_sublist _).subset h
  rw [List.mem_reverse] at h2
  exact (List.dropWhile_sublist _).subset h2

lemma dropWhile_nl_of_not_mem (l : Str) (h : '\n' ∉ l) :
    l.dropWhile (fun c => c == '\n') = l := by
  cases l with
  | nil => rfl
  | cons c rest =>
    have hc : ¬ c = '\n' := by
      intro he
      subst he
      exact h (List.mem_cons_self _ _)
    simp [List.dropWhile_cons, hc]

lemma trimNL_concat_nl (L : Str) (hne : L ≠ []) (hnm : '\n' ∉ L) :
    trimNL (L ++ ['\n']) = L := by
  have h1 : (L ++ ['\n']).dropWhile (fun c => c == '\n') = L ++ ['\n'] := by
    cases L with
    | nil => exact absurd rfl hne
    | cons b q1 =>
      have hb : ¬ b = '\n' := fun he => hnm (he ▸ List.mem_cons_self _ _)
      rw [List.cons_append, List.dropWhile_cons]
      simp [hb]
  unfold trimNL trimBy
  rw [h1, List.reverse_append]
  rw [show (['\n'] : Str).reverse = ['\n'] from rfl, List.singleton_append, List.dropWhile_cons]
  simp only [beq_self_eq_true]
  simp only [if_true]
  rw [dropWhile_nl_of_not_mem _ (fun hin => hnm (List.mem_reverse.mp hin)), List.reverse_reverse]

lemma no_nl_trimNL : ∀ p : Str, '\n' ∉ p.dropLast → '\n' ∉ trimNL p := by
  intro p hp
  rcases List.eq_nil_or_concat p with rfl | ⟨q, a, hqa⟩
  · simp [trimNL, trimBy]
  · rw [List.concat_eq_append] at hqa
    subst hqa
    rw [List.dropLast_concat] at hp
    by_cases ha : a = '\n'
    · subst ha
      rcases q with _ | ⟨b, q1⟩
      · decide
      · rw [trimNL_concat_nl (b :: q1) (by simp) hp]
        exact hp
    · have hmem : '\n' ∉ q ++ [a] := by
        intro hin
        rcases List.mem_append.mp hin with hin | hin
        · exact hp hin
        · simp at hin
          exact ha hin.symm
      intro hin
      exact hmem (mem_of_mem_trimNL hin)

def c1root : Str := "/d/".data

def c1good1 : WalkEntry :=
  { name := "a.md".data, path := "/d/a.md".data, data := "hello".data, mtime := 1 }

def c1bad : WalkEntry :=
  { name := "b.md".data, path := "/d/b.md".data,
    data := "---\nnot toml\n---\nbody".data, mtime := 2 }

def c1good2 : WalkEntry :=
  { name := "c.md".data, path := "/d/c.md".data, data := "world".data, mtime := 3 }

/-- Claim C1 (code bug): the claim says a single file with an unparsable
front-matter block is reported and excluded while every other file still
yields a Document in order.  In the code, `analyzeHenryFile` returns the
metadata parse error to the `filepath.Walk` callback, which aborts the
whole walk: with files 1 and 3 parsable and file 2 unparsable,
`findHenryFiles` ends in an error, `main` panics, and no Document
collection is produced at all — even though the same two good files alone
yield 2 documents. -/
theorem metadata_parse_failure_aborts_batch :
    (findHenryFiles c1root [c1good1, c1bad, c1good2]).isError = true
    ∧ henryPipeline id id c1root [c1good1, c1bad, c1good2] = none
    ∧ (henryPipeline id id c1root [c1good1, c1good2]).map List.length = some 2 :=
  ⟨by decide, by decide, by decide⟩

def c2root : Str := "/d/".data

def c2entry : WalkEntry :=
  { name := "empty.md".data, path := "/d/empty.md".data, data := [], mtime := 5 }

def c2file : HenryFile :=
  { name := "empty.md".data, path := "/d/empty.md".data, subPath := [],
    type := .markdown, data := [], body := [], hasMetadata := false,
    metadata := none, date := 5 }

/-- Claim C2 (code bug): the claim says the metadata reference is always
non-null after front-matter parsing, including for an empty byte buffer.
In the code the empty-buffer early return fires before the default
metadata object is allocated, so for a 0-byte markdown file the analyzed
record still has a nil metadata pointer, and `createHenryDocument`
dereferences it — the pipeline crashes (`none`) instead of producing a
document. -/
theorem empty_markdown_file_nil_metadata :
    analyzeHenryFile c2root c2entry = .ok c2file
    ∧ c2file.metadata = none
    ∧ henryPipeline id id c2root [c2entry] = none :=
  ⟨by decide, rfl, by decide⟩

def c3file : HenryFile :=
  { name := "u.md".data, path := "/d/u.md".data, subPath := [], type := .markdown,
    data := "---".data, body := [], hasMetadata := false, metadata := none, date := 0 }

def c3one : HenryFile :=
  { name := "v.md".data, path := "/d/v.md".data, subPath := [], type := .markdown,
    data := "-".data, body := [], hasMetadata := false, metadata := none, date := 0 }

def c3two : HenryFile :=
  { name := "w.md".data, path := "/d/w.md".data, subPath := [], type := .markdown,
    data := "--".data, body := [], hasMetadata := false, metadata := none, date := 0 }

/-- Claim C3 (code bug): the claim says front-matter parsing never
panics and completes normally or with a MetadataParseError.  For the
3-byte buffer consisting of exactly one `---` delimiter, the split has
only two parts, part 1 decodes successfully, and the code then indexes
`headerParts[2]` out of range — a runtime panic (`crash`).  Buffers of
length 1 and 2 do complete normally, as the claim states. -/
theorem unterminated_front_matter_crashes :
    readHenryFileMetadata c3file = .crash
    ∧ (readHenryFileMetadata c3one).okVal.map (fun f => (f.hasMetadata, f.body))
        = some (false, "-".data)
    ∧ (readHenryFileMetadata c3two).okVal.map (fun f => (f.hasMetadata, f.body))
        = some (false, "--".data) :=
  ⟨by decide, by decide, by decide⟩

def c4file : HenryFile :=
  { name := "post.md".data, path := "/d/post.md".data, subPath := [], type := .markdown,
    data := "---\ntitle = \"T\"\n---\nA---B".data, body := [], hasMetadata := false,
    metadata := none, date := 0 }

/-- Claim C4, counterexample: for the well-formed file
`---\ntitle = "T"\n---\nA---B` the metadata parses exactly, but the code
takes the body from split part 2, which stops at the next `---`
occurrence: the body is `\nA`, not the full text `\nA---B` after the
second delimiter, contradicting the claim's "including any later `---`
occurrences inside the body". -/
theorem body_stops_at_third_delimiter :
    (readHenryFileMetadata c4file).okVal.map (fun f => (f.body, f.metadata))
      = some ("\nA".data,
          some { title := "T".data, date := 0, draft := false, summary := [] })
    ∧ textAfterSecondDashes c4file.data = some ("\nA---B".data)
    ∧ "\nA".data ≠ "\nA---B".data :=
  ⟨by decide, by decide, by decide⟩

lemma listGet1 (a b : Str) (l : List Str) : (a :: b :: l).get? 1 = some b := rfl

lemma listGet2 (a b c : Str) (l : List Str) : (a :: b :: c :: l).get? 2 = some c := rfl

/-- Claim C4, amended: for every file whose raw content is
`---` ++ block ++ `---` ++ tail, where the block holds no `---` and does
not end in `-` (so the delimiters do not merge) and the decoder accepts
the block, the parsed metadata equals the decoded block exactly, and the
body equals the text after the second delimiter occurrence provided that
text contains no further `---` occurrence (the restriction the
counterexample forces). -/
theorem front_matter_split_amended (file : HenryFile) (block tl : Str) (m : HenryFileMetadata)
    (hdata : file.data = dashes ++ block ++ dashes ++ tl)
    (hblock : afterDashes block = none)
    (hlast : block.getLast? ≠ some '-')
    (htail : afterDashes tl = none)
    (hm : tomlDecode block = .ok m) :
    readHenryFileMetadata file
      = .ok { file with hasMetadata := true, metadata := some m, body := tl }
    ∧ textAfterSecondDashes file.data = some tl := by
  have hd : file.data = '-' :: '-' :: '-' :: (block ++ '-' :: '-' :: '-' :: tl) := by
    rw [hdata]
    simp [dashes]
  constructor
  · unfold readHenryFileMetadata
    rw [hd]
    rw [if_neg (by simp)]
    simp only [goSlice3_cons3]
    rw [if_neg (by intro hne; exact hne rfl)]
    rw [splitDashes_dash3, splitDashes_block block hblock hlast tl,
      splitDashes_of_no_dashes tl htail]
    rw [listGet1, listGet2]
    simp only [hm]
  · rw [textAfterSecondDashes, hd, afterDashes_dash3]
    exact afterDashes_block block hblock hlast tl

/-- Claim C5: for every file whose raw content does not begin with the
3-byte delimiter `---` (including the empty buffer), front-matter parsing
completes with has-metadata = false and a body equal to the full raw
content unchanged. -/
theorem no_delimiter_keeps_body (file : HenryFile)
    (hm : file.hasMetadata = false) (hb : file.body = [])
    (h : ¬ dashes <+: file.data) :
    ((readHenryFileMetadata file).okVal).map (fun f => (f.hasMetadata, f.body))
      = some (false, file.data) := by
  unfold readHenryFileMetadata
  by_cases hlen : file.data.length = 0
  · have hnil : file.data = [] := List.eq_nil_of_length_eq_zero hlen
    simp [hlen, GoResult.okVal, hm, hb, hnil]
  · have hner : goSlice3 file.data ≠ dashes := fun he => h ((goSlice3_eq_dashes_iff _).mp he)
    simp [hlen, hner, GoResult.okVal]

/-- Claim C6: the Document's summary resolution — a non-empty metadata
summary is rendered and sanitized (with no double-newline collapsing)
and kept raw in summary-raw; otherwise a non-empty content-paragraphs
sequence supplies its first paragraph as the summary with summary-raw
left empty; otherwise both stay empty. -/
theorem summary_resolution (render sanitize : Str → Str) (file : HenryFile)
    (m : HenryFileMetadata) :
    (m.summary ≠ [] →
      (createHenryDocumentMeta render sanitize file m).summary = sanitize (render m.summary)
      ∧ (createHenryDocumentMeta render sanitize file m).summaryRaw = m.summary)
    ∧ (m.summary = [] →
      (createHenryDocumentMeta render sanitize file m).contentParagraphs ≠ [] →
      (createHenryDocumentMeta render sanitize file m).summary
        = (createHenryDocumentMeta render sanitize file m).contentParagraphs.headD []
      ∧ (createHenryDocumentMeta render sanitize file m).summaryRaw = [])
    ∧ (m.summary = [] →
      (createHenryDocumentMeta render sanitize file m).contentParagraphs = [] →
      (createHenryDocumentMeta render sanitize file m).summary = []
      ∧ (createHenryDocumentMeta render sanitize file m).summaryRaw = []) := by
  refine ⟨fun h => ?_, fun h hp => ?_, fun h hp => ?_⟩
  · simp [createHenryDocumentMeta, h]
  · simp only [createHenryDocumentMeta] at hp ⊢
    have hpos := List.length_pos.mpr hp
    rw [List.length_map] at hpos
    simp [h, hpos]
  · simp only [createHenryDocumentMeta] at hp ⊢
    simp [h, hp]

/-- Claim C7: the Document's title equals the metadata title when that
title is non-empty, and otherwise equals the File Record's file name. -/
theorem title_resolution (render sanitize : Str → Str) (file : HenryFile)
    (m : HenryFileMetadata) :
    (m.title ≠ [] → (createHenryDocumentMeta render sanitize file m).title = m.title)
    ∧ (m.title = [] → (createHenryDocumentMeta render sanitize file m).title = file.name) := by
  constructor <;> intro h <;> simp [createHenryDocumentMeta, h]

/-- Claim C8: `analyzeHenryFile` stamps the File Record's date with the
filesystem modification time, and the Document's date equals the
metadata date when it is not the zero value, else that modification
time. -/
theorem date_resolution (rootPath : Str) (e : WalkEntry) (f : HenryFile)
    (render sanitize : Str → Str) (file : HenryFile) (m : HenryFileMetadata) :
    (analyzeHenryFile rootPath e = .ok f → f.date = e.mtime)
    ∧ (m.date ≠ 0 → (createHenryDocumentMeta render sanitize file m).date = m.date)
    ∧ (m.date = 0 → (createHenryDocumentMeta render sanitize file m).date = file.date) := by
  refine ⟨fun h => ?_, fun h => ?_, fun h => ?_⟩
  · simp only [analyzeHenryFile] at h
    split at h
    · rename_i f2 heq
      injection h with h2
      rw [← h2]
    · exact GoResult.noConfusion h
    · exact GoResult.noConfusion h
  · simp [createHenryDocumentMeta, h]
  · simp [createHenryDocumentMeta, h]

/-- Claim C9: the builder's draft resolution (metadata draft if true,
else false) equals plain copying of the metadata draft flag, for both
boolean values. -/
theorem draft_resolution_copies (render sanitize : Str → Str) (file : HenryFile)
    (m : HenryFileMetadata) :
    (createHenryDocumentMeta render sanitize file m).draft = m.draft := by
  cases h : m.draft <;> simp [createHenryDocumentMeta, h]

/-- Claim C10: every entry of the Document's content-paragraphs
sequence is free of the literal newline character: the content is split
after each newline and the newline is trimmed off each segment. -/
theorem contentParagraphs_newline_free (render sanitize : Str → Str) (file : HenryFile)
    (m : HenryFileMetadata) (p : Str)
    (hp : p ∈ (createHenryDocumentMeta render sanitize file m).contentParagraphs) :
    '\n' ∉ p := by
  simp only [createHenryDocumentMeta] at hp
  rcases List.mem_map.mp hp with ⟨q, hq, rfl⟩
  exact no_nl_trimNL q (no_inner_nl _ q hq)

def c4wfile : HenryFile :=
  { name := "ok.md".data, path := "/d/ok.md".data, subPath := [], type := .markdown,
    data := "---\ntitle = \"A\"\n---\nbody".data, body := [], hasMetadata := false,
    metadata := none, date := 0 }

def c4wBlock : Str := "\ntitle = \"A\"\n".data

def c4wTail : Str := "\nbody".data

def c4wMeta : HenryFileMetadata :=
  { title := "A".data, date := 0, draft := false, summary := [] }

theorem front_matter_split_amended_witness :
    (c4wfile.data = dashes ++ c4wBlock ++ dashes ++ c4wTail
      ∧ afterDashes c4wBlock = none
      ∧ c4wBlock.getLast? ≠ some '-'
      ∧ afterDashes c4wTail = none
      ∧ tomlDecode c4wBlock = .ok c4wMeta)
    ∧ readHenryFileMetadata c4wfile
        = .ok { c4wfile with hasMetadata := true, metadata := some c4wMeta, body := c4wTail }
    ∧ textAfterSecondDashes c4wfile.data = some c4wTail :=
  ⟨⟨by decide, by decide, by decide, by decide, rfl⟩,
    (front_matter_split_amended c4wfile c4wBlock c4wTail c4wMeta (by decide) (by decide)
      (by decide) (by decide) rfl).1,
    (front_matter_split_amended c4wfile c4wBlock c4wTail c4wMeta (by decide) (by decide)
      (by decide) (by decide) rfl).2⟩

def c5file : HenryFile :=
  { name := "plain.md".data, path := "/d/plain.md".data, subPath := [], type := .markdown,
    data := "hello world".data, body := [], hasMetadata := false, metadata := none, date := 3 }

theorem no_delimiter_keeps_body_witness :
    (c5file.hasMetadata = false ∧ c5file.body = [] ∧ ¬ dashes <+: c5file.data)
    ∧ ((readHenryFileMetadata c5file).okVal).map (fun f => (f.hasMetadata, f.body))
        = some (false, c5file.data) :=
  ⟨⟨rfl, rfl, by decide⟩, no_delimiter_keeps_body c5file rfl rfl (by decide)⟩

def c6file : HenryFile :=
  { name := "s.md".data, path := "/d/s.md".data, subPath := [], type := .markdown,
    data := [], body := "First para\nSecond para".data, hasMetadata := true,
    metadata := some HenryFileMetadata.empty, date := 0 }

theorem summary_resolution_witness :
    (HenryFileMetadata.empty.summary = []
      ∧ (createHenryDocumentMeta id id c6file HenryFileMetadata.empty).contentParagraphs ≠ [])
    ∧ (createHenryDocumentMeta id id c6file HenryFileMetadata.empty).summary
        = (createHenryDocumentMeta id id c6file HenryFileMetadata.empty).contentParagraphs.headD []
    ∧ (createHenryDocumentMeta id id c6file HenryFileMetadata.empty).summaryRaw = [] :=
  ⟨⟨rfl, by decide⟩,
    ((summary_resolution id id c6file HenryFileMetadata.empty).2.1 rfl (by decide)).1,
    ((summary_resolution id id c6file HenryFileMetadata.empty).2.1 rfl (by decide)).2⟩

def c7file : HenryFile :=
  { name := "post.md".data, path := "/d/post.md".data, subPath := [], type := .markdown,
    data := [], body := [], hasMetadata := true, metadata := none, date := 0 }

def c7meta : HenryFileMetadata :=
  { title := "Hello".data, date := 0, draft := false, summary := [] }

theorem title_resolution_witness :
    ("Hello".data ≠ ([] : Str)
      ∧ (createHenryDocumentMeta id id c7file c7meta).title = "Hello".data)
    ∧ (HenryFileMetadata.empty.title = []
      ∧ (createHenryDocumentMeta id id c7file HenryFileMetadata.empty).title = c7file.name) :=
  ⟨⟨by decide, (title_resolution id id c7file c7meta).1 (by decide)⟩,
    ⟨rfl, (title_resolution id id c7file HenryFileMetadata.empty).2 rfl⟩⟩

def c8root : Str := "/d/".data

def c8entry : WalkEntry :=
  { name := "t.md".data, path := "/d/t.md".data, data := "x".data, mtime := 7 }

def c8file : HenryFile :=
  { name := "t.md".data, path := "/d/t.md".data, subPath := [], type := .markdown,
    data := "x".data, body := "x".data, hasMetadata := false,
    metadata := some HenryFileMetadata.empty, date := 7 }

def c8meta : HenryFileMetadata :=
  { title := [], date := 42, draft := false, summary := [] }

theorem date_resolution_witness :
    (analyzeHenryFile c8root c8entry = .ok c8file ∧ c8file.date = c8entry.mtime)
    ∧ ((42 : Time) ≠ 0 ∧ (createHenryDocumentMeta id id c8file c8meta).date = 42)
    ∧ (HenryFileMetadata.empty.date = 0
      ∧ (createHenryDocumentMeta id id c8file HenryFileMetadata.empty).date = c8file.date) :=
  ⟨⟨by decide, (date_resolution c8root c8entry c8file id id c8file c8meta).1 (by decide)⟩,
    ⟨by decide, (date_resolution c8root c8entry c8file id id c8file c8meta).2.1 (by decide)⟩,
    ⟨rfl, (date_resolution c8root c8entry c8file id id c8file HenryFileMetadata.empty).2.2 rfl⟩⟩

def c10file : HenryFile :=
  { name := "p.md".data, path := "/d/p.md".data, subPath := [], type := .markdown,
    data := [], body := "a\nb".data, hasMetadata := true,
    metadata := some HenryFileMetadata.empty, date := 0 }

theorem contentParagraphs_newline_free_witness :
    ("a".data ∈ (createHenryDocumentMeta id id c10file HenryFileMetadata.empty).contentParagraphs)
    ∧ '\n' ∉ "a".data :=
  ⟨by decide,
    contentParagraphs_newline_free id id c10file HenryFileMetadata.empty "a".data (by decide)⟩

end Henry
